import Mathlib

/-!
Verification development for the clustering and scoring core of
content-monitor.py (keyword extraction, Jaccard similarity, greedy
single-pass clustering, cluster scoring, suggestion generation).

The Python functions are embedded shallowly:
- text is a `String` processed as its character list; `str.lower` and the
  regex character classes are modelled on the ASCII range, which is the range
  the extraction regex `[a-z]` can ever match;
- Python floats are modelled by exact rationals `ℚ`; `round(x, 2)` becomes
  exact rounding of a rational to hundredths;
- Python sets become `Finset String`, and the `Counter` of a cluster is
  modelled by the concatenation of the member keyword lists (the counter
  value of a token is `List.count`, and insertion order is first-occurrence
  order in that concatenation);
- the stable Timsort used by `list.sort(key=..., reverse=True)` is modelled
  by `List.mergeSort`, which is likewise stable;
- loops that repeatedly discard a computed chunk of their input are written
  with a structural fuel parameter initialised to the input length, so that
  all definitions evaluate by kernel reduction; fuel-irrelevance lemmas below
  recover the natural unfolding equations.
-/

attribute [local semireducible] Rat.mul Rat.add Rat.inv Rat.sub

/-- The stop-word set of `ContentMonitor._extract_keywords`, copied verbatim. -/
def stop_words : List String :=
  ["the", "a", "an", "and", "or", "but", "in", "on", "at", "to", "for",
   "of", "with", "by", "from", "as", "is", "was", "are", "were", "been",
   "be", "have", "has", "had", "do", "does", "did", "will", "would", "should",
   "could", "may", "might", "can", "this", "that", "these", "those", "i", "you",
   "he", "she", "it", "we", "they", "what", "which", "who", "when", "where",
   "why", "how", "all", "each", "every", "both", "few", "more", "most", "other",
   "some", "such", "no", "nor", "not", "only", "own", "same", "so", "than", "too",
   "very", "just", "now", "new"]

/-- ASCII lowercasing, the effect of `str.lower` on ASCII characters. -/
def asciiLower (c : Char) : Char :=
  if 'A' ≤ c ∧ c ≤ 'Z' then Char.ofNat (c.toNat + 32) else c

/-- Lowercase ASCII letter: the character class `[a-z]` of the extraction
regex. -/
def letterChar (c : Char) : Bool :=
  'a' ≤ c && c ≤ 'z'

/-- Regex word character `\w` (ASCII range): letters, digits, underscore.
The `\b` boundaries of the extraction regex are transitions between word and
non-word characters. -/
def wordChar (c : Char) : Bool :=
  c.isAlphanum || c = '_'

/-- Fuel-driven worker for `wordRuns`. -/
def wordRunsF : Nat → List Char → List (List Char)
  | _, [] => []
  | 0, _ :: _ => []
  | fuel + 1, c :: cs =>
    if wordChar c then
      (c :: cs.takeWhile wordChar) :: wordRunsF fuel (cs.dropWhile wordChar)
    else
      wordRunsF fuel cs

/-- Maximal runs of word characters in a character list.  A match of the
regex `\b[a-z]{3,}\b` is exactly such a run that consists solely of lowercase
letters and has length at least 3: both `\b` anchors force the match to span
a whole word run, and `[a-z]` forces the run to be all letters. -/
def wordRuns (l : List Char) : List (List Char) :=
  wordRunsF l.length l

/-- `ContentMonitor._extract_keywords`: the tokens found by
`re.findall` with pattern `\b[a-z]{3,}\b` on the lowercased text, with stop
words removed. -/
def extract_keywords (text : String) : List String :=
  let words := ((wordRuns (text.data.map asciiLower)).filter
      (fun r => r.all letterChar && decide (3 ≤ r.length))).map (fun r => String.mk r)
  words.filter (fun w => !stop_words.contains w)

/-- Fuel-driven worker for `letterRuns`. -/
def letterRunsF : Nat → List Char → List (List Char)
  | _, [] => []
  | 0, _ :: _ => []
  | fuel + 1, c :: cs =>
    if letterChar c then
      (c :: cs.takeWhile letterChar) :: letterRunsF fuel (cs.dropWhile letterChar)
    else
      letterRunsF fuel cs

/-- Maximal runs of lowercase letters, ignoring word boundaries.  This is the
run notion used by the wording of claim C2, which asserts that letter runs
adjacent to digits or underscores are still extracted. -/
def letterRuns (l : List Char) : List (List Char) :=
  letterRunsF l.length l

/-- Keyword extraction exactly as claim C2 words it: every maximal run of
ASCII letters of length at least 3 in the lowercased text is kept, even when
the run is adjacent to a digit or another non-letter word character, and stop
words are then removed. -/
def claimed_keywords (text : String) : List String :=
  (((letterRuns (text.data.map asciiLower)).filter
      (fun r => decide (3 ≤ r.length))).map (fun r => String.mk r)).filter
    (fun w => !stop_words.contains w)

/-- Fuel-driven worker for `boundedLetterRuns`. -/
def boundedLetterRunsF : Nat → Bool → List Char → List (List Char)
  | _, _, [] => []
  | 0, _, _ :: _ => []
  | fuel + 1, prevWord, c :: cs =>
    if letterChar c then
      (if !prevWord && decide (3 ≤ (c :: cs.takeWhile letterChar).length) &&
          (match cs.dropWhile letterChar with | [] => true | d :: _ => !wordChar d) then
        [c :: cs.takeWhile letterChar]
      else
        []) ++ boundedLetterRunsF fuel true (cs.dropWhile letterChar)
    else
      boundedLetterRunsF fuel (wordChar c) cs

/-- Maximal letter runs that satisfy the regex word boundaries: a run is kept
when the character before it (tracked through `prevWord`) is not a word
character, its length is at least 3, and the character after it is not a word
character. -/
def boundedLetterRuns (prevWord : Bool) (l : List Char) : List (List Char) :=
  boundedLetterRunsF l.length prevWord l

/-- Keyword extraction as claim C2 must be amended: maximal runs of ASCII
letters of length at least 3 that are not adjacent to any other word
character (regex word-boundary semantics), with stop words removed. -/
def bounded_keywords (text : String) : List String :=
  ((boundedLetterRuns false (text.data.map asciiLower)).map
      (fun r => String.mk r)).filter (fun w => !stop_words.contains w)

/-- `ContentMonitor._calculate_similarity`: the Jaccard index of the two
distinct-token sets, and 0 when either keyword list is empty or the union is
empty. -/
def calculate_similarity (keywords1 keywords2 : List String) : ℚ :=
  if keywords1 = [] ∨ keywords2 = [] then 0
  else
    let set1 := keywords1.toFinset
    let set2 := keywords2.toFinset
    let intersection := (set1 ∩ set2).card
    let union := (set1 ∪ set2).card
    if 0 < union then (intersection : ℚ) / (union : ℚ) else 0

/-- A raw feed entry as stored in the `feeds_data` mapping. -/
structure RawEntry where
  title : String
  link : String
  summary : String
  published : String
deriving DecidableEq

/-- The per-feed record of `feeds_data`: entries, the feed topics and the
feed category. -/
structure FeedData where
  entries : List RawEntry
  topics : List String
  category : String
deriving DecidableEq

/-- An element of `all_entries` in `cluster_topics`: a raw entry tagged with
its source feed name, the feed topics and the extracted keywords. -/
structure Entry where
  title : String
  link : String
  summary : String
  published : String
  source : String
  source_topics : List String
  keywords : List String
deriving DecidableEq

/-- A cluster as built by `cluster_topics`.  `keywords` models the `Counter`
as the concatenation of the member keyword lists. -/
structure Cluster where
  entries : List Entry
  keywords : List String
  sources : Finset String
  topics : Finset String
deriving DecidableEq

/-- The similarity-above-threshold test of the clustering loop: candidate
`other` joins the cluster seeded by `seed` when the similarity of their
keyword lists strictly exceeds 0.15. -/
def simAbove (seed other : Entry) : Bool :=
  decide ((15 : ℚ) / 100 < calculate_similarity seed.keywords other.keywords)

/-- The cluster assembled from a seed entry and the later entries absorbed by
it, in scan order: entries appended in order, keyword counts merged, sources
and topics unioned. -/
def mkCluster (seed : Entry) (friends : List Entry) : Cluster :=
  { entries := seed :: friends
    keywords := seed.keywords ++ (friends.map Entry.keywords).flatten
    sources := (seed.source :: friends.map Entry.source).toFinset
    topics := (seed.source_topics ++ (friends.map Entry.source_topics).flatten).toFinset }

/-- Fuel-driven worker for `greedyCluster`. -/
def greedyClusterF : Nat → List Entry → List Cluster
  | _, [] => []
  | 0, _ :: _ => []
  | fuel + 1, e :: rest =>
    mkCluster e (rest.filter (simAbove e)) ::
      greedyClusterF fuel (rest.filter (fun o => !simAbove e o))

/-- The greedy single-pass clustering loop of `cluster_topics` over
`all_entries`: the first unused entry seeds a cluster, absorbs every later
unused entry whose similarity to the seed exceeds 0.15, and the loop
continues on the entries that remain unused. -/
def greedyCluster (l : List Entry) : List Cluster :=
  greedyClusterF l.length l

/-- The entry-collection phase of `cluster_topics`: flatten `feeds_data` into
`all_entries`, tagging each entry with its source and computing its keywords
from title and summary. -/
def collectEntries (feeds_data : List (String × FeedData)) : List Entry :=
  feeds_data.flatMap (fun fd =>
    fd.2.entries.map (fun e =>
      { title := e.title, link := e.link, summary := e.summary,
        published := e.published, source := fd.1, source_topics := fd.2.topics,
        keywords := extract_keywords (e.title ++ " " ++ e.summary) }))

/-- `ContentMonitor.cluster_topics`. -/
def cluster_topics (feeds_data : List (String × FeedData)) : List Cluster :=
  greedyCluster (collectEntries feeds_data)

/-- The `topic_weights` mapping from configuration. -/
abbrev TopicWeights := List (String × ℚ)

/-- `self.topic_weights.get(topic, 0.3)`. -/
def weightOf (tw : TopicWeights) (topic : String) : ℚ :=
  (tw.lookup topic).getD (3 / 10)

/-- Exact rounding to two decimal places, modelling `round(x, 2)`.  Exact
half-hundredth ties round up here; no claim exercises a tie. -/
def roundTo2 (x : ℚ) : ℚ :=
  (round (x * 100) : ℚ) / 100

/-- `ContentMonitor.score_cluster`. -/
def score_cluster (tw : TopicWeights) (cluster : Cluster) : ℚ :=
  let topic_sum := ∑ t ∈ cluster.topics, weightOf tw t
  let topic_score : ℚ :=
    if cluster.topics.Nonempty then topic_sum / (cluster.topics.card : ℚ) else 3 / 10
  let source_multiplier : ℚ := 1 + ((cluster.sources.card : ℚ) - 1) * (3 / 10)
  let entry_multiplier : ℚ := 1 + ((cluster.entries.length : ℚ) - 1) * (1 / 10)
  roundTo2 (topic_score * source_multiplier * entry_multiplier)

/-- A blog-post suggestion derived from one cluster. -/
structure Suggestion where
  score : ℚ
  headline : String
  sources : List String
  topics : List String
  angle : String
  entries : List Entry
deriving DecidableEq

/-- Character-level worker for `asciiTitle`, tracking whether the previous
character was a letter. -/
def titleGo : Bool → List Char → List Char
  | _, [] => []
  | prevAlpha, c :: cs =>
    if c.isAlpha then
      (if prevAlpha then c.toLower else c.toUpper) :: titleGo true cs
    else
      c :: titleGo false cs

/-- Python `str.title` on the ASCII range: uppercase every letter that does
not follow another letter, lowercase the remaining letters. -/
def asciiTitle (s : String) : String :=
  String.mk (titleGo false s.data)

/-- Distinct tokens of a keyword list in order of first occurrence: the
insertion order of the corresponding `Counter`. -/
def firstOccurrences (l : List String) : List String :=
  l.foldl (fun acc w => if w ∈ acc then acc else acc ++ [w]) []

/-- `cluster.keywords.most_common(5)` keys: distinct tokens stably sorted by
count descending (ties stay in insertion order), first five. -/
def top_keywords (cluster : Cluster) : List String :=
  ((firstOccurrences cluster.keywords).mergeSort
      (fun a b => decide (cluster.keywords.count b ≤ cluster.keywords.count a))).take 5

/-- `ContentMonitor._generate_headline`: the title of the first entry of the
cluster; the fallback for an entry-less cluster joins the first three top
keywords and title-cases them. -/
def generate_headline (cluster : Cluster) (keywords : List String) : String :=
  match cluster.entries with
  | e :: _ => e.title
  | [] => asciiTitle (String.intercalate " " (keywords.take 3))

/-- `ContentMonitor._generate_angle`. -/
def generate_angle (cluster : Cluster) : String :=
  if ["voip", "telecom", "vcon", "voice-intelligence"].any
      (fun t => decide (t ∈ cluster.topics)) then
    if "ai" ∈ cluster.topics then
      "Connect this to vCon and AI-powered voice intelligence in telecom"
    else
      "How this impacts the VoIP/UCaaS industry and vCon adoption"
  else if "ai" ∈ cluster.topics ∨ "llm" ∈ cluster.topics ∨ "ai-agents" ∈ cluster.topics then
    if "dev-tools" ∈ cluster.topics then
      "Developer perspective: practical applications and tooling"
    else
      "Bridge this AI development with telecom/voice applications"
  else
    "Industry implications and practical takeaways for technical leaders"

/-- One suggestion per cluster, before sorting, in cluster-discovery order. -/
def mkSuggestion (tw : TopicWeights) (cluster : Cluster) : Suggestion :=
  { score := score_cluster tw cluster
    headline := generate_headline cluster (top_keywords cluster)
    sources := cluster.sources.sort (· ≤ ·)
    topics := cluster.topics.sort (· ≤ ·)
    angle := generate_angle cluster
    entries := cluster.entries }

/-- `ContentMonitor.generate_suggestions`: build one suggestion per cluster,
stable-sort by score descending, keep the top five. -/
def generate_suggestions (tw : TopicWeights) (clusters : List Cluster) : List Suggestion :=
  ((clusters.map (mkSuggestion tw)).mergeSort
      (fun a b => decide (b.score ≤ a.score))).take 5

/-- The two-entry scenario of section 8 of the spec. -/
def scenarioFeeds : List (String × FeedData) :=
  [("A", { entries := [{ title := "AI voice agents rise", link := "",
                         summary := "AI agents transform telecom", published := "" }],
           topics := ["ai", "telecom"], category := "" }),
   ("B", { entries := [{ title := "New AI agent tools", link := "",
                         summary := "AI agents transform telecom", published := "" }],
           topics := ["ai", "dev-tools"], category := "" })]

example : (cluster_topics scenarioFeeds).length = 1 := by decide
example : (cluster_topics scenarioFeeds).map (fun c => c.sources.card) = [2] := by decide
example : (cluster_topics scenarioFeeds).map (score_cluster []) = [43 / 100] := by decide
example : (cluster_topics scenarioFeeds).map generate_angle =
    ["Connect this to vCon and AI-powered voice intelligence in telecom"] := by decide

example : extract_keywords "foo1" = [] := by decide
example : claimed_keywords "foo1" = ["foo"] := by decide
example : bounded_keywords "foo1" = [] := by decide
example : extract_keywords "AI voice agents rise AI agents transform telecom" =
    ["voice", "agents", "rise", "agents", "transform", "telecom"] := by decide
example : calculate_similarity ["abc"] ["abc"] = 1 := by decide
example : calculate_similarity ["abc", "run"] ["run", "zeta", "abc"] = 2 / 3 := by decide

/-! ### Similarity properties (claim C6) -/

theorem calculate_similarity_comm (k1 k2 : List String) :
    calculate_similarity k1 k2 = calculate_similarity k2 k1 := by
  by_cases h : k1 = [] ∨ k2 = []
  · simp [calculate_similarity, h, or_comm.mp h]
  · have h' : ¬(k2 = [] ∨ k1 = []) := fun hc => h (or_comm.mp hc)
    simp only [calculate_similarity, h, h', if_false]
    rw [Finset.inter_comm, Finset.union_comm]

theorem calculate_similarity_nonneg (k1 k2 : List String) :
    0 ≤ calculate_similarity k1 k2 := by
  by_cases h : k1 = [] ∨ k2 = []
  · simp [calculate_similarity, h]
  · simp only [calculate_similarity, h, if_false]
    by_cases hu : 0 < (k1.toFinset ∪ k2.toFinset).card
    · simp only [hu, if_true]
      positivity
    · simp [hu]

theorem calculate_similarity_le_one (k1 k2 : List String) :
    calculate_similarity k1 k2 ≤ 1 := by
  by_cases h : k1 = [] ∨ k2 = []
  · simp [calculate_similarity, h]
  · simp only [calculate_similarity, h, if_false]
    by_cases hu : 0 < (k1.toFinset ∪ k2.toFinset).card
    · simp only [hu, if_true]
      rw [div_le_one (by exact_mod_cast hu)]
      exact_mod_cast Finset.card_le_card
        (Finset.inter_subset_union (s := k1.toFinset) (t := k2.toFinset))
    · simp [hu]

theorem calculate_similarity_empty (k1 k2 : List String) (h : k1 = [] ∨ k2 = []) :
    calculate_similarity k1 k2 = 0 := by
  simp [calculate_similarity, h]

theorem calculate_similarity_self (k : List String) (h : k ≠ []) :
    calculate_similarity k k = 1 := by
  have hne : k.toFinset.Nonempty := by
    match k, h with
    | a :: l, _ => exact ⟨a, by simp⟩
  have hc : 0 < k.toFinset.card := Finset.card_pos.mpr hne
  simp only [calculate_similarity, h, or_self, if_false, Finset.inter_self, Finset.union_self,
    hc, if_true]
  exact div_self (Nat.cast_pos.mpr hc).ne'

theorem calculate_similarity_jaccard (k1 k2 : List String) (h1 : k1 ≠ []) (h2 : k2 ≠ []) :
    calculate_similarity k1 k2 =
      ((k1.toFinset ∩ k2.toFinset).card : ℚ) / ((k1.toFinset ∪ k2.toFinset).card : ℚ) := by
  have hne : k1.toFinset.Nonempty := by
    match k1, h1 with
    | a :: l, _ => exact ⟨a, by simp⟩
  have hu : 0 < (k1.toFinset ∪ k2.toFinset).card :=
    Finset.card_pos.mpr (hne.mono Finset.subset_union_left)
  have h : ¬(k1 = [] ∨ k2 = []) := by simp [h1, h2]
  simp [calculate_similarity, h, hu]

/-- Claim C6: `_calculate_similarity` always lands in `[0, 1]`, is symmetric,
is 0 whenever either keyword list is empty, is 1 on a non-empty list against
itself, and equals the Jaccard index of the distinct-token sets for non-empty
inputs. -/
theorem C6_similarity_properties (k1 k2 : List String) :
    0 ≤ calculate_similarity k1 k2 ∧
    calculate_similarity k1 k2 ≤ 1 ∧
    calculate_similarity k1 k2 = calculate_similarity k2 k1 ∧
    (k1 = [] ∨ k2 = [] → calculate_similarity k1 k2 = 0) ∧
    (k1 ≠ [] → calculate_similarity k1 k1 = 1) ∧
    (k1 ≠ [] → k2 ≠ [] →
      calculate_similarity k1 k2 =
        ((k1.toFinset ∩ k2.toFinset).card : ℚ) / ((k1.toFinset ∪ k2.toFinset).card : ℚ)) :=
  ⟨calculate_similarity_nonneg k1 k2, calculate_similarity_le_one k1 k2,
   calculate_similarity_comm k1 k2, calculate_similarity_empty k1 k2,
   fun h => calculate_similarity_self k1 h,
   fun h1 h2 => calculate_similarity_jaccard k1 k2 h1 h2⟩

/-- Witness for C6 at concrete keyword lists, discharging the non-emptiness
hypotheses. -/
theorem C6_similarity_properties_witness :
    calculate_similarity ["agents", "tools"] ["agents", "tools"] = 1 ∧
    calculate_similarity ["agents", "tools"] ["agents"] =
      (((["agents", "tools"] : List String).toFinset ∩
          (["agents"] : List String).toFinset).card : ℚ) /
        (((["agents", "tools"] : List String).toFinset ∪
          (["agents"] : List String).toFinset).card : ℚ) :=
  ⟨(C6_similarity_properties ["agents", "tools"] ["agents", "tools"]).2.2.2.2.1 (by decide),
   (C6_similarity_properties ["agents", "tools"] ["agents"]).2.2.2.2.2
     (by decide) (by decide)⟩

/-! ### Scoring (claim C3) -/

/-- Topic score as section 4.4 of the spec words it: the mean topic weight
with default 0.3, or 0.3 for an empty topic set. -/
def spec_topic_score (tw : TopicWeights) (c : Cluster) : ℚ :=
  if c.topics = ∅ then 3 / 10
  else (∑ t ∈ c.topics, weightOf tw t) / (c.topics.card : ℚ)

/-- Cluster score as section 4.4 of the spec words it. -/
def spec_score (tw : TopicWeights) (c : Cluster) : ℚ :=
  roundTo2 (spec_topic_score tw c * (1 + ((c.sources.card : ℚ) - 1) * (3 / 10)) *
    (1 + ((c.entries.length : ℚ) - 1) * (1 / 10)))

theorem weightOf_nonneg (tw : TopicWeights) (t : String) (h : ∀ p ∈ tw, 0 ≤ p.2) :
    0 ≤ weightOf tw t := by
  induction tw with
  | nil => norm_num [weightOf, List.lookup]
  | cons p rest ih =>
    rcases p with ⟨k, q⟩
    by_cases hb : t == k
    · simpa [weightOf, List.lookup, hb] using h (k, q) (List.mem_cons_self _ _)
    · simp only [weightOf, List.lookup, hb] at *
      exact ih fun r hr => h r (List.mem_cons_of_mem _ hr)

theorem roundTo2_nonneg (x : ℚ) (h : 0 ≤ x) : 0 ≤ roundTo2 x := by
  have h1 : (0 : ℤ) ≤ round (x * 100) := by
    rw [round_eq]
    exact Int.floor_nonneg.mpr (by positivity)
  unfold roundTo2
  positivity

theorem score_cluster_eq_spec (tw : TopicWeights) (c : Cluster) :
    score_cluster tw c = spec_score tw c := by
  simp only [score_cluster, spec_score, spec_topic_score, Finset.nonempty_iff_ne_empty]
  by_cases h : c.topics = ∅ <;> simp [h]

theorem spec_score_nonneg (tw : TopicWeights) (c : Cluster) (h : ∀ p ∈ tw, 0 ≤ p.2) :
    0 ≤ spec_score tw c := by
  have hts : 0 ≤ spec_topic_score tw c := by
    unfold spec_topic_score
    by_cases hne : c.topics = ∅
    · norm_num [hne]
    · simp only [hne, if_false]
      apply div_nonneg
      · exact Finset.sum_nonneg fun t _ => weightOf_nonneg tw t h
      · positivity
  have hsm : (0 : ℚ) ≤ 1 + ((c.sources.card : ℚ) - 1) * (3 / 10) := by
    have hc : (0 : ℚ) ≤ (c.sources.card : ℚ) := Nat.cast_nonneg _
    nlinarith
  have hem : (0 : ℚ) ≤ 1 + ((c.entries.length : ℚ) - 1) * (1 / 10) := by
    have hc : (0 : ℚ) ≤ (c.entries.length : ℚ) := Nat.cast_nonneg _
    nlinarith
  exact roundTo2_nonneg _ (mul_nonneg (mul_nonneg hts hsm) hem)

/-- Claim C3: the cluster score is the rounded spec formula, is non-negative
for non-negative topic weights, always has exactly two decimal places, and a
cluster with one entry, one source and a single unweighted topic scores
exactly 0.3. -/
theorem C3_score_properties (tw : TopicWeights) (c : Cluster)
    (h : ∀ p ∈ tw, 0 ≤ p.2) :
    score_cluster tw c = spec_score tw c ∧
    0 ≤ score_cluster tw c ∧
    (∃ n : ℤ, score_cluster tw c = (n : ℚ) / 100) ∧
    (∀ t : String, c.entries.length = 1 → c.sources.card = 1 → c.topics = {t} →
      tw.lookup t = none → score_cluster tw c = 3 / 10) := by
  refine ⟨score_cluster_eq_spec tw c, ?_, ?_, ?_⟩
  · rw [score_cluster_eq_spec]
    exact spec_score_nonneg tw c h
  · rw [score_cluster_eq_spec]
    exact ⟨round ((spec_topic_score tw c * (1 + ((c.sources.card : ℚ) - 1) * (3 / 10)) *
      (1 + ((c.entries.length : ℚ) - 1) * (1 / 10))) * 100), rfl⟩
  · intro t h1 h2 h3 h4
    rw [score_cluster_eq_spec]
    simp only [spec_score, spec_topic_score, h1, h2, h3, Finset.singleton_ne_empty, if_false,
      Finset.sum_singleton, Finset.card_singleton, weightOf, h4, Option.getD_none, Nat.cast_one]
    norm_num
    decide

/-- A one-entry, one-source, one-topic cluster used to witness C3. -/
def soloCluster : Cluster :=
  { entries := [{ title := "t", link := "", summary := "", published := "",
                  source := "A", source_topics := ["solo"], keywords := [] }]
    keywords := []
    sources := { "A" }
    topics := { "solo" } }

/-- Witness for C3 at a concrete weight table and cluster, discharging every
hypothesis. -/
theorem C3_score_properties_witness :
    score_cluster [("ai", 9 / 10)] soloCluster = 3 / 10 :=
  (C3_score_properties [("ai", 9 / 10)] soloCluster (by decide)).2.2.2 "solo"
    (by decide) (by decide) (by decide) (by decide)

/-! ### The section-8 scenario (claims C4 and C5) -/

/-- Claim C4: on the two-entry scenario of spec section 8 with an empty
weight table, the two entries merge into a single cluster with two sources
and two entries, the source multiplier is 1.3, the entry multiplier is 1.1,
and the score is exactly 0.43. -/
theorem C4_scenario_score :
    (cluster_topics scenarioFeeds).length = 1 ∧
    (cluster_topics scenarioFeeds).map (fun c => c.sources.card) = [2] ∧
    (cluster_topics scenarioFeeds).map (fun c => c.entries.length) = [2] ∧
    (cluster_topics scenarioFeeds).map
      (fun c => 1 + ((c.sources.card : ℚ) - 1) * (3 / 10)) = [13 / 10] ∧
    (cluster_topics scenarioFeeds).map
      (fun c => 1 + ((c.entries.length : ℚ) - 1) * (1 / 10)) = [11 / 10] ∧
    (cluster_topics scenarioFeeds).map (score_cluster []) = [43 / 100] := by
  decide

/-- Counterexample to claim C5: on the section-8 scenario the generated angle
is not the AI/telecom-bridge string.  The topic set contains "telecom", so
the first branch of `_generate_angle` fires and, with "ai" also present,
returns the cross-domain vCon string. -/
theorem C5_angle_counterexample :
    (cluster_topics scenarioFeeds).map generate_angle ≠
      ["Bridge this AI development with telecom/voice applications"] := by
  decide

/-- Claim C5 as amended: the scenario cluster has topic set
ai, telecom, dev-tools, and its angle is the cross-domain AI/voice string
"Connect this to vCon and AI-powered voice intelligence in telecom". -/
theorem C5_angle_amended :
    (cluster_topics scenarioFeeds).map (fun c => c.topics) =
      [({"ai", "telecom", "dev-tools"} : Finset String)] ∧
    (cluster_topics scenarioFeeds).map generate_angle =
      ["Connect this to vCon and AI-powered voice intelligence in telecom"] := by
  decide

/-! ### The greedy clustering loop: unfolding equations -/

theorem greedyClusterF_nil (n : Nat) : greedyClusterF n [] = [] := by
  cases n <;> rfl

theorem greedyClusterF_congr :
    ∀ {n m : Nat} (l : List Entry), l.length ≤ n → l.length ≤ m →
      greedyClusterF n l = greedyClusterF m l := by
  intro n
  induction n with
  | zero =>
    intro m l h1 _
    have : l = [] := List.eq_nil_of_length_eq_zero (Nat.le_zero.mp h1)
    subst this
    rw [greedyClusterF_nil, greedyClusterF_nil]
  | succ n ih =>
    intro m l h1 h2
    match l, m with
    | [], _ => rw [greedyClusterF_nil, greedyClusterF_nil]
    | e :: rest, 0 => exact absurd h2 (by simp)
    | e :: rest, m + 1 =>
      simp only [greedyClusterF]
      congr 1
      have hr : rest.length ≤ n := Nat.succ_le_succ_iff.mp h1
      have hr' : rest.length ≤ m := Nat.succ_le_succ_iff.mp h2
      exact ih _ (le_trans (List.length_filter_le _ _) hr)
        (le_trans (List.length_filter_le _ _) hr')

theorem greedyCluster_nil : greedyCluster [] = [] := rfl

theorem greedyCluster_cons (e : Entry) (rest : List Entry) :
    greedyCluster (e :: rest) =
      mkCluster e (rest.filter (simAbove e)) ::
        greedyCluster (rest.filter (fun o => !simAbove e o)) := by
  unfold greedyCluster
  simp only [List.length_cons, greedyClusterF]
  congr 1
  exact greedyClusterF_congr _ (le_trans (List.length_filter_le _ _) (Nat.le_refl _))
    (Nat.le_refl _)

/-! ### Partition of the input (claim C1) -/

theorem greedy_perm (l : List Entry) :
    List.Perm ((greedyCluster l).map Cluster.entries).flatten l := by
  match l with
  | [] => simp [greedyCluster_nil]
  | e :: rest =>
    rw [greedyCluster_cons]
    have ih := greedy_perm (rest.filter (fun o => !simAbove e o))
    simp only [List.map_cons, List.flatten_cons, mkCluster, List.cons_append]
    exact ((List.Perm.append_left _ ih).cons e).trans
      ((List.filter_append_perm (simAbove e) rest).cons e)
termination_by l.length
decreasing_by
  exact Nat.lt_succ_of_le (List.length_filter_le _ _)

/-- Claim C1: clustering partitions the collected entries exactly.  The
concatenation of the cluster entry lists is a permutation of `all_entries`,
hence the lengths sum to the input length and every entry value occurs with
the same multiplicity on both sides (no overlap, no omission). -/
theorem C1_partition (feeds_data : List (String × FeedData)) :
    List.Perm ((cluster_topics feeds_data).map Cluster.entries).flatten
      (collectEntries feeds_data) ∧
    ((cluster_topics feeds_data).map (fun c => c.entries.length)).sum =
      (collectEntries feeds_data).length ∧
    ∀ x : Entry, ((cluster_topics feeds_data).map Cluster.entries).flatten.count x =
      (collectEntries feeds_data).count x := by
  have hp := greedy_perm (collectEntries feeds_data)
  refine ⟨hp, ?_, fun x => hp.count_eq x⟩
  have hl := hp.length_eq
  simpa [List.length_flatten, Function.comp_def] using hl

/-! ### Identical keyword sets land in the same cluster (claim C10) -/

theorem calculate_similarity_congr_right (k a b : List String)
    (hab : a.toFinset = b.toFinset) (ha : a ≠ []) (hb : b ≠ []) :
    calculate_similarity k a = calculate_similarity k b := by
  by_cases hk : k = []
  · simp [calculate_similarity, hk]
  · rw [calculate_similarity_jaccard k a hk ha, calculate_similarity_jaccard k b hk hb, hab]

theorem toFinset_ne_of_ne_nil (a : List String) (h : a ≠ []) : a.toFinset ≠ ∅ := by
  cases a with
  | nil => exact absurd rfl h
  | cons x l =>
    intro hc
    have hx : x ∈ (x :: l).toFinset := by simp
    rw [hc] at hx
    exact absurd hx (Finset.not_mem_empty x)

theorem simAbove_congr (e x y : Entry) (hset : x.keywords.toFinset = y.keywords.toFinset)
    (hx : x.keywords ≠ []) (hy : y.keywords ≠ []) :
    simAbove e x = simAbove e y := by
  unfold simAbove
  rw [calculate_similarity_congr_right e.keywords x.keywords y.keywords hset hx hy]

theorem greedy_same_keywords (l : List Entry) (x y : Entry) (hx : x ∈ l) (hy : y ∈ l)
    (hset : x.keywords.toFinset = y.keywords.toFinset) (hne : x.keywords ≠ []) :
    ∃ c ∈ greedyCluster l, x ∈ c.entries ∧ y ∈ c.entries := by
  have hny : y.keywords ≠ [] := by
    intro hc
    apply toFinset_ne_of_ne_nil x.keywords hne
    rw [hset, hc]
    rfl
  match l with
  | [] => exact absurd hx (List.not_mem_nil x)
  | e :: rest =>
    rw [greedyCluster_cons]
    by_cases hxe : x = e
    · refine ⟨mkCluster e (rest.filter (simAbove e)), List.mem_cons_self _ _,
        List.mem_cons.mpr (Or.inl hxe), ?_⟩
      by_cases hye : y = e
      · exact List.mem_cons.mpr (Or.inl hye)
      · have hyr : y ∈ rest := (List.mem_cons.mp hy).resolve_left hye
        have hsim : simAbove e y = true := by
          unfold simAbove
          rw [← hxe]
          rw [calculate_similarity_congr_right x.keywords y.keywords x.keywords hset.symm
            hny hne, calculate_similarity_self x.keywords hne]
          norm_num
        exact List.mem_cons_of_mem _ (List.mem_filter.mpr ⟨hyr, hsim⟩)
    · by_cases hye : y = e
      · refine ⟨mkCluster e (rest.filter (simAbove e)), List.mem_cons_self _ _, ?_,
          List.mem_cons.mpr (Or.inl hye)⟩
        have hxr : x ∈ rest := (List.mem_cons.mp hx).resolve_left hxe
        have hsim : simAbove e x = true := by
          unfold simAbove
          rw [← hye]
          rw [calculate_similarity_congr_right y.keywords x.keywords y.keywords hset
            hne hny, calculate_similarity_self y.keywords hny]
          norm_num
        exact List.mem_cons_of_mem _ (List.mem_filter.mpr ⟨hxr, hsim⟩)
      · have hxr : x ∈ rest := (List.mem_cons.mp hx).resolve_left hxe
        have hyr : y ∈ rest := (List.mem_cons.mp hy).resolve_left hye
        have hcongr := simAbove_congr e x y hset hne hny
        by_cases hs : simAbove e x = true
        · exact ⟨mkCluster e (rest.filter (simAbove e)), List.mem_cons_self _ _,
            List.mem_cons_of_mem _ (List.mem_filter.mpr ⟨hxr, hs⟩),
            List.mem_cons_of_mem _ (List.mem_filter.mpr ⟨hyr, hcongr ▸ hs⟩)⟩
        · have hsx : simAbove e x = false := Bool.eq_false_iff.mpr hs
          have hsy : simAbove e y = false := hcongr ▸ hsx
          obtain ⟨c, hc, hcx, hcy⟩ :=
            greedy_same_keywords (rest.filter (fun o => !simAbove e o)) x y
              (List.mem_filter.mpr ⟨hxr, by simp [hsx]⟩)
              (List.mem_filter.mpr ⟨hyr, by simp [hsy]⟩) hset hne
          exact ⟨c, List.mem_cons_of_mem _ hc, hcx, hcy⟩
termination_by l.length
decreasing_by
  exact Nat.lt_succ_of_le (List.length_filter_le _ _)

/-- Claim C10: two collected entries with the same non-empty set of distinct
keyword tokens always end up in the same cluster, wherever they sit in the
input. -/
theorem C10_equal_keyword_sets (feeds_data : List (String × FeedData)) (x y : Entry)
    (hx : x ∈ collectEntries feeds_data) (hy : y ∈ collectEntries feeds_data)
    (hset : x.keywords.toFinset = y.keywords.toFinset) (hne : x.keywords ≠ []) :
    ∃ c ∈ cluster_topics feeds_data, x ∈ c.entries ∧ y ∈ c.entries :=
  greedy_same_keywords (collectEntries feeds_data) x y hx hy hset hne

/-- Input used to witness C10 and C7: three entries where the first and third
share their keyword set and the middle one is unrelated. -/
def tripleFeeds : List (String × FeedData) :=
  [("F", { entries := [{ title := "alpha beta gamma", link := "",
                         summary := "", published := "" },
                       { title := "delta epsilon zeta", link := "",
                         summary := "", published := "" },
                       { title := "gamma beta alpha", link := "",
                         summary := "", published := "" }],
           topics := [], category := "" })]

/-- The first collected entry of `tripleFeeds`. -/
def entryAlpha : Entry :=
  { title := "alpha beta gamma", link := "", summary := "", published := "",
    source := "F", source_topics := [], keywords := ["alpha", "beta", "gamma"] }

/-- The third collected entry of `tripleFeeds`: same keyword set as
`entryAlpha` in a different order, separated by an unrelated entry. -/
def entryGamma : Entry :=
  { title := "gamma beta alpha", link := "", summary := "", published := "",
    source := "F", source_topics := [], keywords := ["gamma", "beta", "alpha"] }

/-- Witness for C10 at the concrete three-entry input. -/
theorem C10_equal_keyword_sets_witness :
    ∃ c ∈ cluster_topics tripleFeeds, entryAlpha ∈ c.entries ∧ entryGamma ∈ c.entries :=
  C10_equal_keyword_sets tripleFeeds entryAlpha entryGamma (by decide) (by decide)
    (by decide) (by decide)

/-! ### The per-cluster membership rule (claim C7) -/

/-- Claim C7: when an entry seeds a cluster, a later unused candidate is
absorbed exactly when its similarity to the seed strictly exceeds 0.15 (the
test only ever mentions the seed), and absorption appends the candidate to
the entry list, merges its keyword counts, and unions its source and its
source topics into the cluster. -/
theorem C7_seed_membership (e : Entry) (rest : List Entry) :
    (greedyCluster (e :: rest)).head? = some (mkCluster e (rest.filter (simAbove e))) ∧
    (∀ o ∈ rest, (o ∈ rest.filter (simAbove e) ↔
      (15 : ℚ) / 100 < calculate_similarity e.keywords o.keywords)) ∧
    (mkCluster e (rest.filter (simAbove e))).entries = e :: rest.filter (simAbove e) ∧
    (mkCluster e (rest.filter (simAbove e))).keywords =
      e.keywords ++ ((rest.filter (simAbove e)).map Entry.keywords).flatten ∧
    (∀ s, s ∈ (mkCluster e (rest.filter (simAbove e))).sources ↔
      s = e.source ∨ ∃ o ∈ rest.filter (simAbove e), o.source = s) ∧
    (∀ t, t ∈ (mkCluster e (rest.filter (simAbove e))).topics ↔
      t ∈ e.source_topics ∨ ∃ o ∈ rest.filter (simAbove e), t ∈ o.source_topics) := by
  refine ⟨?_, ?_, rfl, rfl, ?_, ?_⟩
  · rw [greedyCluster_cons]
    rfl
  · intro o ho
    simp [List.mem_filter, ho, simAbove]
  · intro s
    simp only [mkCluster, List.mem_toFinset, List.mem_cons, List.mem_map]
  · intro t
    simp only [mkCluster, List.mem_toFinset, List.mem_append, List.mem_flatten, List.mem_map]
    constructor
    · rintro (h | ⟨l, ⟨o, ho, rfl⟩, ht⟩)
      · exact Or.inl h
      · exact Or.inr ⟨o, ho, ht⟩
    · rintro (h | ⟨o, ho, ht⟩)
      · exact Or.inl h
      · exact Or.inr ⟨o.source_topics, ⟨o, ho, rfl⟩, ht⟩

/-- Witness for C7: at the concrete three-entry input, the first later entry
has the same keyword set as the seed and is absorbed; the membership rule
instantiates to a concrete equivalence. -/
theorem C7_seed_membership_witness :
    entryGamma ∈ [entryGamma].filter (simAbove entryAlpha) ↔
      (15 : ℚ) / 100 < calculate_similarity entryAlpha.keywords entryGamma.keywords :=
  (C7_seed_membership entryAlpha [entryGamma]).2.1 entryGamma (by decide)

/-! ### Empty input and empty keyword sets (claim C9) -/

theorem collectEntries_eq_nil (feeds_data : List (String × FeedData))
    (h : ∀ p ∈ feeds_data, p.2.entries = []) : collectEntries feeds_data = [] := by
  induction feeds_data with
  | nil => rfl
  | cons p rest ih =>
    have hp : p.2.entries = [] := h p (List.mem_cons_self _ _)
    have hr := ih fun q hq => h q (List.mem_cons_of_mem _ hq)
    simp [collectEntries, List.flatMap_cons, hp] at hr ⊢
    exact hr

theorem collectEntries_keywords (feeds_data : List (String × FeedData)) (x : Entry)
    (hx : x ∈ collectEntries feeds_data) :
    x.keywords = extract_keywords (x.title ++ " " ++ x.summary) := by
  unfold collectEntries at hx
  rw [List.mem_flatMap] at hx
  obtain ⟨p, _, hmem⟩ := hx
  rw [List.mem_map] at hmem
  obtain ⟨r, _, rfl⟩ := hmem
  rfl

theorem greedy_empty_keywords (l : List Entry) (c : Cluster) (hc : c ∈ greedyCluster l)
    (e : Entry) (he : e ∈ c.entries) (hk : e.keywords = []) : c.entries = [e] := by
  match l with
  | [] => rw [greedyCluster_nil] at hc; exact absurd hc (List.not_mem_nil c)
  | f :: rest =>
    rw [greedyCluster_cons] at hc
    rcases List.mem_cons.mp hc with hhead | htail
    · subst hhead
      rcases List.mem_cons.mp he with hef | hef
    -- the entry with empty keywords is the seed: nothing is absorbed
      · have hkf : f.keywords = [] := by rw [← hef]; exact hk
        have hfil : rest.filter (simAbove f) = [] := by
          apply List.filter_eq_nil_iff.mpr
          intro o _
          simp only [simAbove, calculate_similarity_empty f.keywords o.keywords (Or.inl hkf)]
          norm_num
        simp [mkCluster, hfil, hef]
    -- the entry with empty keywords was absorbed: its similarity would be 0
      · have hs := (List.mem_filter.mp hef).2
        simp only [simAbove, calculate_similarity_empty f.keywords e.keywords (Or.inr hk),
          decide_eq_true_eq] at hs
        norm_num at hs
    · exact greedy_empty_keywords _ c htail e he hk
termination_by l.length
decreasing_by
  exact Nat.lt_succ_of_le (List.length_filter_le _ _)

/-- Claim C9 as amended: a `feeds_data` mapping with no entries yields no
clusters and no suggestions; similarity against an empty keyword list is
always 0; an entry whose title and summary are both empty has an empty
keyword set; and any clustered entry with an empty keyword set sits in a
singleton cluster. -/
theorem C9_empty_input_behaviour (tw : TopicWeights)
    (feeds_data : List (String × FeedData)) :
    ((∀ p ∈ feeds_data, p.2.entries = []) →
      cluster_topics feeds_data = [] ∧
      generate_suggestions tw (cluster_topics feeds_data) = []) ∧
    (∀ k : List String, calculate_similarity [] k = 0 ∧ calculate_similarity k [] = 0) ∧
    (∀ x ∈ collectEntries feeds_data, x.title = "" → x.summary = "" → x.keywords = []) ∧
    (∀ c ∈ cluster_topics feeds_data, ∀ e ∈ c.entries, e.keywords = [] →
      c.entries = [e]) := by
  refine ⟨?_, ?_, ?_, ?_⟩
  · intro h
    have hnil : collectEntries feeds_data = [] := collectEntries_eq_nil feeds_data h
    have hcl : cluster_topics feeds_data = [] := by
      rw [cluster_topics, hnil, greedyCluster_nil]
    refine ⟨hcl, ?_⟩
    rw [hcl]
    simp [generate_suggestions]
  · intro k
    exact ⟨calculate_similarity_empty [] k (Or.inl rfl),
      calculate_similarity_empty k [] (Or.inr rfl)⟩
  · intro x hx ht hs
    rw [collectEntries_keywords feeds_data x hx, ht, hs]
    decide
  · intro c hc e he hk
    exact greedy_empty_keywords (collectEntries feeds_data) c hc e he hk

/-- Witness for C9 at a concrete entry-less input and a concrete input whose
single entry has empty title and summary. -/
theorem C9_empty_input_behaviour_witness :
    (cluster_topics [("A", { entries := [], topics := ["ai"], category := "" })] = [] ∧
      generate_suggestions []
        (cluster_topics [("A", { entries := [], topics := ["ai"], category := "" })]) = []) ∧
    (∀ c ∈ cluster_topics
        [("B", { entries := [{ title := "", link := "", summary := "",
                               published := "" }], topics := [], category := "" })],
      ∀ e ∈ c.entries, e.keywords = [] → c.entries = [e]) :=
  ⟨(C9_empty_input_behaviour []
      [("A", { entries := [], topics := ["ai"], category := "" })]).1 (by decide),
   (C9_empty_input_behaviour []
      [("B", { entries := [{ title := "", link := "", summary := "",
                             published := "" }], topics := [], category := "" })]).2.2.2⟩

/-- Input refuting claim C9 as stated: two entries with empty summaries but
identical non-trivial titles. -/
def emptySummaryFeeds : List (String × FeedData) :=
  [("A", { entries := [{ title := "telecom agents transform", link := "",
                         summary := "", published := "" },
                       { title := "telecom agents transform", link := "",
                         summary := "", published := "" }],
           topics := [], category := "" })]

/-- Counterexample to claim C9: an entry with an empty summary does not have
an empty keyword set (keywords are extracted from title plus summary), and
two such entries merge into one two-entry cluster instead of remaining
isolated singleton clusters. -/
theorem C9_empty_summary_counterexample :
    extract_keywords ("telecom agents transform" ++ " " ++ "") ≠ [] ∧
    (cluster_topics emptySummaryFeeds).map (fun c => c.entries.length) = [2] := by
  decide

/-! ### Suggestion ranking (claim C8) -/

theorem suggestion_le_trans : ∀ a b c : Suggestion,
    decide (b.score ≤ a.score) = true → decide (c.score ≤ b.score) = true →
    decide (c.score ≤ a.score) = true := by
  intro a b c hab hbc
  simp only [decide_eq_true_eq] at *
  exact le_trans hbc hab

theorem suggestion_le_total : ∀ a b : Suggestion,
    (decide (b.score ≤ a.score) || decide (a.score ≤ b.score)) = true := by
  intro a b
  rcases le_total b.score a.score with h | h <;> simp [h]

theorem filter_score_pairwise (l : List Suggestion) (q : ℚ) :
    (l.filter (fun s => decide (s.score = q))).Pairwise
      (fun a b => decide (b.score ≤ a.score) = true) := by
  apply List.pairwise_of_forall_mem_list
  intro a ha b hb
  have ha' : a.score = q := by simpa using (List.mem_filter.mp ha).2
  have hb' : b.score = q := by simpa using (List.mem_filter.mp hb).2
  simp [ha', hb']

/-- Claim C8: `generate_suggestions` returns at most five suggestions, sorted
by score descending, and stably: for every score value, the suggestions
carrying that score appear as a sublist of the pre-sort suggestion list,
which is in cluster-discovery order. -/
theorem C8_top_five (tw : TopicWeights) (clusters : List Cluster) :
    (generate_suggestions tw clusters).length ≤ 5 ∧
    (generate_suggestions tw clusters).Pairwise (fun a b => b.score ≤ a.score) ∧
    ∀ q : ℚ, List.Sublist
      ((generate_suggestions tw clusters).filter (fun s => decide (s.score = q)))
      ((clusters.map (mkSuggestion tw)).filter (fun s => decide (s.score = q))) := by
  refine ⟨?_, ?_, ?_⟩
  · unfold generate_suggestions
    rw [List.length_take]
    exact Nat.min_le_left _ _
  · unfold generate_suggestions
    have hs := List.sorted_mergeSort suggestion_le_trans suggestion_le_total
      (clusters.map (mkSuggestion tw))
    exact (hs.take).imp (fun h => by simpa using h)
  · intro q
    have hbase := filter_score_pairwise (clusters.map (mkSuggestion tw)) q
    have hsub0 : List.Sublist
        ((clusters.map (mkSuggestion tw)).filter (fun s => decide (s.score = q)))
        (clusters.map (mkSuggestion tw)) := List.filter_sublist _
    have hsub1 := List.sublist_mergeSort suggestion_le_trans suggestion_le_total hbase hsub0
    have hsub2 := hsub1.filter (fun s => decide (s.score = q))
    rw [List.filter_filter] at hsub2
    have hsame : ((clusters.map (mkSuggestion tw)).filter
        (fun s => decide (s.score = q) && decide (s.score = q))) =
        ((clusters.map (mkSuggestion tw)).filter (fun s => decide (s.score = q))) := by
      apply List.filter_congr
      intro s _
      rw [Bool.and_self]
    rw [hsame] at hsub2
    have hperm := (List.mergeSort_perm (clusters.map (mkSuggestion tw))
      (fun a b => decide (b.score ≤ a.score))).filter (fun s => decide (s.score = q))
    have heq := hsub2.eq_of_length hperm.length_eq.symm
    have htake := (List.take_sublist 5 ((clusters.map (mkSuggestion tw)).mergeSort
      (fun a b => decide (b.score ≤ a.score)))).filter (fun s => decide (s.score = q))
    rw [← heq] at htake
    exact htake

/-! ### Keyword extraction versus word boundaries (claim C2) -/

theorem wordRunsF_nil (n : Nat) : wordRunsF n [] = [] := by
  cases n <;> rfl

theorem wordRunsF_congr : ∀ {n m : Nat} (l : List Char), l.length ≤ n → l.length ≤ m →
    wordRunsF n l = wordRunsF m l := by
  intro n
  induction n with
  | zero =>
    intro m l h1 _
    have : l = [] := List.eq_nil_of_length_eq_zero (Nat.le_zero.mp h1)
    subst this
    rw [wordRunsF_nil, wordRunsF_nil]
  | succ n ih =>
    intro m l h1 h2
    match l, m with
    | [], _ => rw [wordRunsF_nil, wordRunsF_nil]
    | c :: cs, 0 => exact absurd h2 (by simp)
    | c :: cs, m + 1 =>
      have hcs : cs.length ≤ n := Nat.succ_le_succ_iff.mp h1
      have hcs' : cs.length ≤ m := Nat.succ_le_succ_iff.mp h2
      simp only [wordRunsF]
      by_cases hw : wordChar c = true
      · rw [if_pos hw, if_pos hw]
        congr 1
        exact ih _ (le_trans (List.dropWhile_sublist wordChar).length_le hcs)
          (le_trans (List.dropWhile_sublist wordChar).length_le hcs')
      · rw [if_neg hw, if_neg hw]
        exact ih _ hcs hcs'

theorem wordRuns_cons (c : Char) (cs : List Char) :
    wordRuns (c :: cs) =
      if wordChar c then
        (c :: cs.takeWhile wordChar) :: wordRuns (cs.dropWhile wordChar)
      else
        wordRuns cs := by
  unfold wordRuns
  simp only [List.length_cons, wordRunsF]
  by_cases hw : wordChar c = true
  · rw [if_pos hw, if_pos hw]
    congr 1
    exact wordRunsF_congr _ (List.dropWhile_sublist wordChar).length_le (Nat.le_refl _)
  · rw [if_neg hw, if_neg hw]

theorem boundedLetterRunsF_nil (n : Nat) (b : Bool) : boundedLetterRunsF n b [] = [] := by
  cases n <;> rfl

theorem boundedLetterRunsF_congr : ∀ {n m : Nat} (b : Bool) (l : List Char),
    l.length ≤ n → l.length ≤ m → boundedLetterRunsF n b l = boundedLetterRunsF m b l := by
  intro n
  induction n with
  | zero =>
    intro m b l h1 _
    have : l = [] := List.eq_nil_of_length_eq_zero (Nat.le_zero.mp h1)
    subst this
    rw [boundedLetterRunsF_nil, boundedLetterRunsF_nil]
  | succ n ih =>
    intro m b l h1 h2
    match l, m with
    | [], _ => rw [boundedLetterRunsF_nil, boundedLetterRunsF_nil]
    | c :: cs, 0 => exact absurd h2 (by simp)
    | c :: cs, m + 1 =>
      have hcs : cs.length ≤ n := Nat.succ_le_succ_iff.mp h1
      have hcs' : cs.length ≤ m := Nat.succ_le_succ_iff.mp h2
      simp only [boundedLetterRunsF]
      by_cases hl : letterChar c = true
      · rw [if_pos hl, if_pos hl]
        congr 1
        exact ih _ _ (le_trans (List.dropWhile_sublist letterChar).length_le hcs)
          (le_trans (List.dropWhile_sublist letterChar).length_le hcs')
      · rw [if_neg hl, if_neg hl]
        exact ih _ _ hcs hcs'

theorem boundedLetterRuns_cons (b : Bool) (c : Char) (cs : List Char) :
    boundedLetterRuns b (c :: cs) =
      if letterChar c then
        (if !b && decide (3 ≤ (c :: cs.takeWhile letterChar).length) &&
            (match cs.dropWhile letterChar with | [] => true | d :: _ => !wordChar d) then
          [c :: cs.takeWhile letterChar]
        else
          []) ++ boundedLetterRuns true (cs.dropWhile letterChar)
      else
        boundedLetterRuns (wordChar c) cs := by
  unfold boundedLetterRuns
  simp only [List.length_cons, boundedLetterRunsF]
  by_cases hl : letterChar c = true
  · rw [if_pos hl, if_pos hl]
    congr 1
    exact boundedLetterRunsF_congr _ _ (List.dropWhile_sublist letterChar).length_le
      (Nat.le_refl _)
  · rw [if_neg hl, if_neg hl]

theorem wordChar_of_letterChar {c : Char} (h : letterChar c = true) : wordChar c = true := by
  simp only [letterChar, Bool.and_eq_true, decide_eq_true_eq] at h
  simp only [wordChar, Char.isAlphanum, Char.isAlpha, Char.isLower, Bool.or_eq_true,
    Bool.and_eq_true, decide_eq_true_eq]
  exact Or.inl (Or.inl (Or.inr ⟨h.1, h.2⟩))

theorem dropWhile_head_false (p : Char → Bool) (l : List Char) (d : Char) (ds : List Char)
    (h : l.dropWhile p = d :: ds) : p d = false := by
  have hh := List.head?_dropWhile_not p l
  rw [h] at hh
  simpa using hh

theorem dropWhile_word_dropWhile_letter (l : List Char) :
    l.dropWhile wordChar = (l.dropWhile letterChar).dropWhile wordChar := by
  induction l with
  | nil => rfl
  | cons c cs ih =>
    by_cases hl : letterChar c = true
    · rw [List.dropWhile_cons_of_pos (wordChar_of_letterChar hl),
        List.dropWhile_cons_of_pos hl]
      exact ih
    · rw [List.dropWhile_cons_of_neg hl]

theorem boundary_take_drop (l : List Char)
    (h : ∀ d, (l.dropWhile letterChar).head? = some d → wordChar d = false) :
    l.takeWhile wordChar = l.takeWhile letterChar ∧
    l.dropWhile wordChar = l.dropWhile letterChar := by
  induction l with
  | nil => exact ⟨rfl, rfl⟩
  | cons c cs ih =>
    by_cases hl : letterChar c = true
    · have hw := wordChar_of_letterChar hl
      have h' : ∀ d, (cs.dropWhile letterChar).head? = some d → wordChar d = false := by
        intro d hd
        apply h d
        rw [List.dropWhile_cons_of_pos hl]
        exact hd
      obtain ⟨h1, h2⟩ := ih h'
      constructor
      · rw [List.takeWhile_cons_of_pos hw, List.takeWhile_cons_of_pos hl, h1]
      · rw [List.dropWhile_cons_of_pos hw, List.dropWhile_cons_of_pos hl, h2]
    · have hw : wordChar c = false := by
        apply h c
        rw [List.dropWhile_cons_of_neg hl]
        rfl
      have hw' : ¬wordChar c = true := by simp [hw]
      constructor
      · rw [List.takeWhile_cons_of_neg hl, List.takeWhile_cons_of_neg hw']
      · rw [List.dropWhile_cons_of_neg hl, List.dropWhile_cons_of_neg hw']

theorem all_letter_false_of_word_head (l : List Char) (d : Char) (ds : List Char)
    (hd : l.dropWhile letterChar = d :: ds) (hw : wordChar d = true) :
    (l.takeWhile wordChar).all letterChar = false := by
  induction l with
  | nil => simp at hd
  | cons c cs ih =>
    by_cases hl : letterChar c = true
    · rw [List.dropWhile_cons_of_pos hl] at hd
      have hall := ih hd
      rw [List.takeWhile_cons_of_pos (wordChar_of_letterChar hl)]
      simp [List.all_cons, hall]
    · rw [List.dropWhile_cons_of_neg hl] at hd
      injection hd with h1 _
      subst h1
      rw [List.takeWhile_cons_of_pos hw]
      simp [List.all_cons, hl]

theorem boundedLetterRuns_eq_filter_wordRuns (n : Nat) : ∀ (l : List Char), l.length ≤ n →
    boundedLetterRuns false l =
      (wordRuns l).filter (fun r => r.all letterChar && decide (3 ≤ r.length)) ∧
    boundedLetterRuns true l =
      (wordRuns (l.dropWhile wordChar)).filter
        (fun r => r.all letterChar && decide (3 ≤ r.length)) := by
  induction n with
  | zero =>
    intro l h
    have : l = [] := List.eq_nil_of_length_eq_zero (Nat.le_zero.mp h)
    subst this
    exact ⟨rfl, rfl⟩
  | succ n ih =>
    intro l hlen
    match l with
    | [] => exact ⟨rfl, rfl⟩
    | c :: cs =>
      have hcs : cs.length ≤ n := Nat.succ_le_succ_iff.mp hlen
      by_cases hl : letterChar c = true
      · have hw := wordChar_of_letterChar hl
        have hrlen : (cs.dropWhile letterChar).length ≤ n :=
          le_trans (List.dropWhile_sublist letterChar).length_le hcs
        have htail := (ih _ hrlen).2
        have hcsw := dropWhile_word_dropWhile_letter cs
        have hall : ((c :: cs.takeWhile letterChar).all letterChar) = true := by
          simp [List.all_cons, hl]
        rcases hrest : cs.dropWhile letterChar with _ | ⟨d, ds⟩
        · -- nothing follows the letter run: the boundary holds
          have hb : ∀ e, (cs.dropWhile letterChar).head? = some e → wordChar e = false := by
            intro e he
            rw [hrest] at he
            simp at he
          obtain ⟨ht, hd2⟩ := boundary_take_drop cs hb
          rw [hrest] at htail
          constructor
          · rw [boundedLetterRuns_cons, if_pos hl, wordRuns_cons, if_pos hw, hrest, ht, hd2,
              hrest]
            simp only [List.filter_cons, hall, htail, Bool.true_and, Bool.not_false,
              Bool.and_true]
            split <;> simp
          · rw [boundedLetterRuns_cons, if_pos hl, hrest,
              List.dropWhile_cons_of_pos hw, hd2, hrest]
            simpa using htail
        · rw [hrest] at htail
          by_cases hwd : wordChar d = true
          · -- a digit or underscore follows the letter run: the run is dropped
            have hcw : cs.dropWhile wordChar = ds.dropWhile wordChar := by
              rw [hcsw, hrest, List.dropWhile_cons_of_pos hwd]
            have hpf : ((c :: cs.takeWhile wordChar).all letterChar) = false := by
              have h1 := all_letter_false_of_word_head cs d ds hrest hwd
              simp [List.all_cons, h1]
            have htail' : boundedLetterRuns true (d :: ds) =
                (wordRuns (ds.dropWhile wordChar)).filter
                  (fun r => r.all letterChar && decide (3 ≤ r.length)) := by
              rw [htail, List.dropWhile_cons_of_pos hwd]
            constructor
            · rw [boundedLetterRuns_cons, if_pos hl, wordRuns_cons, if_pos hw, hrest, hcw]
              simp [List.filter_cons, hpf, hwd, htail']
            · rw [boundedLetterRuns_cons, if_pos hl, hrest,
                List.dropWhile_cons_of_pos hw, hcw]
              simp [hwd, htail']
          · -- a non-word character follows the letter run: the boundary holds
            have hwdf : wordChar d = false := by simpa using hwd
            have hb : ∀ e, (cs.dropWhile letterChar).head? = some e → wordChar e = false := by
              intro e he
              rw [hrest] at he
              simp at he
              exact he ▸ hwdf
            obtain ⟨ht, hd2⟩ := boundary_take_drop cs hb
            have htail' : boundedLetterRuns true (d :: ds) =
                (wordRuns (d :: ds)).filter
                  (fun r => r.all letterChar && decide (3 ≤ r.length)) := by
              rw [htail, List.dropWhile_cons_of_neg hwd]
            constructor
            · rw [boundedLetterRuns_cons, if_pos hl, wordRuns_cons, if_pos hw, hrest, ht, hd2,
                hrest]
              simp only [List.filter_cons, hall, hwdf, htail', Bool.true_and, Bool.not_false,
                Bool.and_true]
              split <;> simp
            · rw [boundedLetterRuns_cons, if_pos hl, hrest,
                List.dropWhile_cons_of_pos hw, hd2, hrest]
              simpa using htail'
      · -- the head is not a letter
        by_cases hw : wordChar c = true
        · -- a digit or underscore head starts a word run that is dropped
          have hpf : ((c :: cs.takeWhile wordChar).all letterChar) = false := by
            simp [List.all_cons, hl]
          constructor
          · rw [boundedLetterRuns_cons, if_neg hl, hw, wordRuns_cons, if_pos hw]
            rw [List.filter_cons]
            simp only [hpf, Bool.false_and]
            rw [if_neg (by simp)]
            exact (ih cs hcs).2
          · rw [boundedLetterRuns_cons, if_neg hl, hw, List.dropWhile_cons_of_pos hw]
            exact (ih cs hcs).2
        · -- a non-word head separates runs
          have hwf : wordChar c = false := by simpa using hw
          constructor
          · rw [boundedLetterRuns_cons, if_neg hl, hwf, wordRuns_cons, if_neg hw]
            exact (ih cs hcs).1
          · rw [boundedLetterRuns_cons, if_neg hl, hwf, List.dropWhile_cons_of_neg hw,
              wordRuns_cons, if_neg hw]
            exact (ih cs hcs).1

theorem extract_eq_bounded (text : String) :
    extract_keywords text = bounded_keywords text := by
  simp only [extract_keywords, bounded_keywords]
  rw [(boundedLetterRuns_eq_filter_wordRuns (text.data.map asciiLower).length
    (text.data.map asciiLower) (Nat.le_refl _)).1]

theorem extract_keywords_tokens (text : String) (w : String) (hw : w ∈ extract_keywords text) :
    w.data.all letterChar = true ∧ 3 ≤ w.length ∧ stop_words.contains w = false := by
  simp only [extract_keywords] at hw
  rw [List.mem_filter] at hw
  obtain ⟨hw1, hstop⟩ := hw
  rw [List.mem_map] at hw1
  obtain ⟨r, hr, rfl⟩ := hw1
  rw [List.mem_filter] at hr
  obtain ⟨-, hpr⟩ := hr
  simp only [Bool.and_eq_true, decide_eq_true_eq] at hpr
  refine ⟨hpr.1, hpr.2, ?_⟩
  simpa using hstop

/-- Claim C2 as amended: the extractor returns exactly the maximal runs of
ASCII letters of length at least 3 in the lowercased text that are not
adjacent to a digit or underscore (the word-boundary semantics of the regex),
in order, with stop words removed; consequently every returned token consists
of lowercase letters, has length at least 3, and is not a stop word.
Determinism of repeated extraction is immediate because the embedding is a
pure function of the text. -/
theorem C2_keywords_amended (text : String) :
    extract_keywords text = bounded_keywords text ∧
    ∀ w ∈ extract_keywords text,
      w.data.all letterChar = true ∧ 3 ≤ w.length ∧ stop_words.contains w = false :=
  ⟨extract_eq_bounded text, fun w hw => extract_keywords_tokens text w hw⟩

/-- Witness for C2 at a concrete text and token. -/
theorem C2_keywords_amended_witness :
    extract_keywords "New AI agent tools" = bounded_keywords "New AI agent tools" ∧
    ("agent".data.all letterChar = true ∧ 3 ≤ "agent".length ∧
      stop_words.contains "agent" = false) :=
  ⟨(C2_keywords_amended "New AI agent tools").1,
   (C2_keywords_amended "New AI agent tools").2 "agent" (by decide)⟩

/-- Counterexample to claim C2 as stated: in the text "foo1" the maximal
letter run "foo" has length 3 and is not a stop word, so the claim says it is
extracted; the regex word boundary between "foo" and the digit fails, so the
code extracts nothing. -/
theorem C2_keywords_counterexample :
    claimed_keywords "foo1" = ["foo"] ∧ extract_keywords "foo1" = [] := by
  decide
